import Mathlib

/-!
Verification of the `ai-code-review-action` repository core:
a shallow embedding in Lean 4 of `src/file-analyzer.js` (class `FileAnalyzer`)
and of the review-engine module (class `ReviewEngine`), together with theorems
settling the specification claims about file selection, diff parsing,
score statistics, recommendation/risk thresholds and inline-comment creation.

JavaScript numbers are modelled as `Nat`/`Int`/`ℚ` (all quantities involved are
integers or exact halves, well inside the float64-exact range), strings as
`String`, absent values (`undefined`/`null`) as `Option`, and JS `Set`/array
membership as `List` membership.
-/

/-! ### JS / Node string and path primitives -/

/-- Does the character list `p` occur as a prefix of `l`? (helper for substring search). -/
def listStartsWith : List Char → List Char → Bool
  | [], _ => true
  | _ :: _, [] => false
  | p :: ps, c :: cs => p = c && listStartsWith ps cs

/-- Does `pat` occur as a contiguous sublist of `hay`? (helper for `strIncludes`). -/
def listContains : List Char → List Char → Bool
  | [], pat => pat.isEmpty
  | c :: cs, pat => listStartsWith pat (c :: cs) || listContains cs pat

/-- JavaScript `String.prototype.includes`: substring containment. -/
def strIncludes (s pat : String) : Bool :=
  listContains s.toList pat.toList

/-- JavaScript `String.prototype.startsWith`. -/
def jsStartsWith (s pre : String) : Bool :=
  listStartsWith pre.toList s.toList

/-- JavaScript `String.prototype.toLowerCase` (character-wise ASCII lowering;
    the inputs under consideration are ASCII). -/
def jsToLower (s : String) : String :=
  ⟨s.toList.map Char.toLower⟩

/-- JavaScript `String.prototype.toUpperCase` (character-wise ASCII raising). -/
def jsToUpper (s : String) : String :=
  ⟨s.toList.map Char.toUpper⟩

/-- Split a character list at newline characters (every part in source order,
    empty parts kept — the semantics of JS `split('\n')`). -/
def splitNewlineAux : List Char → List Char → List (List Char)
  | [], acc => [acc.reverse]
  | c :: cs, acc =>
    if c = '\n' then acc.reverse :: splitNewlineAux cs []
    else splitNewlineAux cs (c :: acc)

/-- JavaScript `patch.split('\n')`. -/
def jsSplitLines (s : String) : List String :=
  (splitNewlineAux s.toList []).map fun l => ⟨l⟩

/-- Node `path.basename` (posix): strip trailing `/` separators, then take the
    segment after the last remaining `/`. -/
def jsBasename (p : String) : String :=
  ⟨((p.toList.reverse.dropWhile (· = '/')).takeWhile (· ≠ '/')).reverse⟩

/-- Node `path.extname` (posix): the substring of the basename from its last `.`
    to the end; empty when the basename has no `.`, when the only `.` is the
    leading character (dotfiles such as `.gitignore`), or for the special name `..`. -/
def extname (p : String) : String :=
  let b := (jsBasename p).toList
  if b = ['.', '.'] then "" else
  let afterRev := b.reverse.takeWhile (· ≠ '.')
  if afterRev.length = b.length then ""
  else if afterRev.length = b.length - 1 then ""
  else ⟨'.' :: afterRev.reverse⟩

/-! ### FileAnalyzer: data model (src/file-analyzer.js) -/

/-- A changed-file descriptor as consumed by `FileAnalyzer` (fields actually read
    by the embedded methods: `filename`, `status`, `changes`). -/
structure ChangedFile where
  filename : String
  status : String
  changes : Nat
  deriving DecidableEq, Repr

/-- The configuration fields `FileAnalyzer` reads.  The `excludePatterns` loop calls
    the third-party `minimatch` library (`matchBase: true`) on each pattern; that
    external glob matcher is abstracted as the predicate `excluded`, i.e.
    `excluded f = true` iff some configured pattern minimatches `f`. -/
structure Config where
  maxFiles : Nat
  excluded : String → Bool

/-- The `this.languageMap` table from the `FileAnalyzer` constructor, in source order. -/
def languageMap : List (String × String) :=
  [(".js", "javascript"), (".jsx", "javascript"), (".ts", "typescript"),
   (".tsx", "typescript"), (".py", "python"), (".java", "java"),
   (".cs", "csharp"), (".cpp", "cpp"), (".c", "c"), (".h", "c"),
   (".hpp", "cpp"), (".php", "php"), (".rb", "ruby"), (".go", "go"),
   (".rs", "rust"), (".swift", "swift"), (".kt", "kotlin"), (".scala", "scala"),
   (".sh", "bash"), (".bash", "bash"), (".zsh", "bash"), (".ps1", "powershell"),
   (".sql", "sql"), (".html", "html"), (".css", "css"), (".scss", "scss"),
   (".sass", "sass"), (".less", "less"), (".vue", "vue"), (".svelte", "svelte"),
   (".yaml", "yaml"), (".yml", "yaml"), (".json", "json"), (".xml", "xml"),
   (".md", "markdown"), (".dockerfile", "dockerfile"), (".r", "r"),
   (".m", "matlab"), (".pl", "perl"), (".lua", "lua"), (".dart", "dart"),
   (".elm", "elm"), (".ex", "elixir"), (".exs", "elixir"), (".clj", "clojure"),
   (".fs", "fsharp"), (".vb", "vbnet"), (".nim", "nim"), (".zig", "zig")]

/-- Source method `FileAnalyzer.detectLanguage`: whole-filename special cases for
    `dockerfile`/`makefile` (note: the source compares `filename.toLowerCase()`,
    not the basename), then the extension table with fallback `"text"`. -/
def detectLanguage (filename : String) : String :=
  if jsToLower filename = "dockerfile" then "dockerfile"
  else if jsToLower filename = "makefile" then "makefile"
  else (languageMap.lookup (jsToLower (extname filename))).getD "text"

/-- The `specialFiles` array of `FileAnalyzer.isCodeFile`. -/
def specialFiles : List String :=
  ["dockerfile", "makefile", "rakefile", "gemfile", "podfile", "package.json",
   "composer.json", "pom.xml", "build.gradle", "cargo.toml", "requirements.txt",
   "setup.py", "tsconfig.json", "eslintrc", "prettierrc", "gitignore",
   "gitattributes", "editorconfig"]

/-- Source method `FileAnalyzer.isCodeFile`: extension listed in the language table, or
    lower-cased basename containing one of the well-known special names. -/
def isCodeFile (filename : String) : Bool :=
  let ext := jsToLower (extname filename)
  let base := jsToLower (jsBasename filename)
  (languageMap.map Prod.fst).contains ext ||
    specialFiles.any (fun special => strIncludes base special)

/-- The `binaryExtensions` array of `FileAnalyzer.isBinaryFile`, in source order. -/
def binaryExtensions : List String :=
  [".png", ".jpg", ".jpeg", ".gif", ".svg", ".ico", ".webp",
   ".pdf", ".doc", ".docx", ".xls", ".xlsx", ".ppt", ".pptx",
   ".zip", ".tar", ".gz", ".rar", ".7z",
   ".exe", ".dll", ".so", ".dylib",
   ".bin", ".dat", ".db", ".sqlite",
   ".mp3", ".mp4", ".avi", ".mov", ".mkv",
   ".ttf", ".otf", ".woff", ".woff2",
   ".jar", ".war", ".ear",
   ".min.js", ".bundle.js"]

/-- Source method `FileAnalyzer.isBinaryFile`: membership of the lower-cased `path.extname`
    result in `binaryExtensions`. -/
def isBinaryFile (filename : String) : Bool :=
  binaryExtensions.contains (jsToLower (extname filename))

/-- Source method `FileAnalyzer.shouldReviewFile`: skip removed files, binary files,
    exclude-pattern matches and files with more than 1000 changes; otherwise
    require `isCodeFile`. -/
def shouldReviewFile (cfg : Config) (file : ChangedFile) : Bool :=
  if file.status = "removed" then false
  else if isBinaryFile file.filename then false
  else if cfg.excluded file.filename then false
  else if file.changes > 1000 then false
  else isCodeFile file.filename

/-- The `languagePriorities` object of `FileAnalyzer.calculateReviewPriority`. -/
def languagePriorities : List (String × Nat) :=
  [("javascript", 15), ("typescript", 15), ("python", 12), ("java", 12),
   ("csharp", 12), ("go", 10), ("rust", 10), ("php", 8), ("ruby", 8)]

/-- Source method `FileAnalyzer.calculateReviewPriority`: sum of path-based, language-based
    and size-based bonuses. -/
def calculateReviewPriority (file : ChangedFile) : Nat :=
  let fn := jsToLower file.filename
  let p1 := if strIncludes fn "src/" || strIncludes fn "lib/" then 20 else 0
  let p2 := if strIncludes fn "test" || strIncludes fn "spec" then 15 else 0
  let p3 := if strIncludes fn "config" || strIncludes fn "package.json" then 10 else 0
  let p4 := if strIncludes fn "auth" || strIncludes fn "security" ||
               strIncludes fn "login" then 25 else 0
  let p5 := (languagePriorities.lookup (detectLanguage file.filename)).getD 5
  let p6 := if file.changes > 100 then 10 else if file.changes > 50 then 5 else 0
  p1 + p2 + p3 + p4 + p5 + p6

/-- A file as returned by `filterFiles`: the original descriptor spread together
    with the detected `language` and the computed `reviewPriority`. -/
structure AnalyzedFile where
  file : ChangedFile
  language : String
  reviewPriority : Nat
  deriving DecidableEq, Repr

/-- The `.map` stage of `FileAnalyzer.filterFiles`. -/
def analyzeFile (file : ChangedFile) : AnalyzedFile :=
  { file := file
    language := detectLanguage file.filename
    reviewPriority := calculateReviewPriority file }

/-- Source method `FileAnalyzer.filterFiles`: filter by `shouldReviewFile`, then
    `.slice(0, maxFiles)`, then annotate, then `.sort((a,b) => b.reviewPriority -
    a.reviewPriority)`.  JS `Array.prototype.sort` is stable, and the stable
    sort of a list under a total preorder is unique, so the stable
    `insertionSort` under the comparator's induced order (descending by
    `reviewPriority`) models it exactly. -/
def filterFiles (cfg : Config) (files : List ChangedFile) : List AnalyzedFile :=
  (((files.filter (shouldReviewFile cfg)).take cfg.maxFiles).map analyzeFile).insertionSort
    (fun a b => b.reviewPriority ≤ a.reviewPriority)

/-! ### FileAnalyzer.parseDiff -/

/-- An `added`/`context` record of a parsed diff: `{line, content}`. -/
structure DiffEntry where
  line : Nat
  content : String
  deriving DecidableEq, Repr

/-- The result of `parseDiff`: `{added, removed, context}` (removed records
    carry only their content). -/
structure ParsedDiff where
  added : List DiffEntry
  removed : List String
  context : List DiffEntry
  deriving DecidableEq, Repr

/-- Running state of the `parseDiff` scan: the three accumulated sequences and
    the `currentLine` cursor. -/
structure ParseState where
  added : List DiffEntry
  removed : List String
  context : List DiffEntry
  cur : Nat
  deriving DecidableEq, Repr

/-- Maximal leading digit run of a character list, with the rest. -/
def takeDigits (cs : List Char) : List Char × List Char :=
  (cs.takeWhile Char.isDigit, cs.dropWhile Char.isDigit)

/-- Numeric value of a digit string (JS `parseInt` on a `\d+` match). -/
def digitsToNat (ds : List Char) : Nat :=
  ds.foldl (fun n c => 10 * n + (c.toNat - '0'.toNat)) 0

/-- The `,?\d*` part of the hunk-header regex: optionally consume one comma and
    a maximal digit run. -/
def skipCommaDigits : List Char → List Char
  | ',' :: rest => rest.dropWhile Char.isDigit
  | cs => cs

/-- Attempt to match the regex `@@ -(\d+),?\d* \+(\d+),?\d* @@` at the head of
    the list, returning the second capture (`parseInt(match[2])`, the new-file
    start) on success. -/
def hunkAt : List Char → Option Nat
  | '@' :: '@' :: ' ' :: '-' :: rest =>
    let (d1, r1) := takeDigits rest
    if d1.isEmpty then none else
    match skipCommaDigits r1 with
    | ' ' :: '+' :: r3 =>
      let (d2, r4) := takeDigits r3
      if d2.isEmpty then none else
      match skipCommaDigits r4 with
      | ' ' :: '@' :: '@' :: _ => some (digitsToNat d2)
      | _ => none
    | _ => none
  | _ => none

/-- Unanchored regex search: the first position at which the hunk-header pattern
    matches, as `String.prototype.match` performs it. -/
def hunkSearch : List Char → Option Nat
  | [] => none
  | c :: cs =>
    match hunkAt (c :: cs) with
    | some n => some n
    | none => hunkSearch cs

/-- The source expression `line.match(/@@ -(\d+),?\d* \+(\d+),?\d* @@/)`, yielding `parseInt(match[2])`. -/
def hunkNewStart (l : String) : Option Nat :=
  hunkSearch l.toList

/-- One iteration of the `parseDiff` loop on a single line of the patch. -/
def parseDiffStep (st : ParseState) (l : String) : ParseState :=
  if jsStartsWith l "@@" then
    match hunkNewStart l with
    | some n => { st with cur := n }
    | none => st
  else if jsStartsWith l "+" && !jsStartsWith l "+++" then
    { st with added := st.added ++ [⟨st.cur, l.drop 1⟩], cur := st.cur + 1 }
  else if jsStartsWith l "-" && !jsStartsWith l "---" then
    { st with removed := st.removed ++ [l.drop 1] }
  else if jsStartsWith l " " then
    { st with context := st.context ++ [⟨st.cur, l.drop 1⟩], cur := st.cur + 1 }
  else st

/-- Source method `FileAnalyzer.parseDiff`: empty (falsy) patch yields three empty sequences;
    otherwise split on `\n` and scan with `parseDiffStep` from `currentLine = 0`. -/
def parseDiff (patch : String) : ParsedDiff :=
  if patch = "" then ⟨[], [], []⟩
  else
    let st := (jsSplitLines patch).foldl parseDiffStep ⟨[], [], [], 0⟩
    ⟨st.added, st.removed, st.context⟩

/-- The trace of intermediate `parseDiff` states (initial state included),
    used to phrase conditions on the `currentLine` cursor. -/
def parseStates (patch : String) : List ParseState :=
  (jsSplitLines patch).scanl parseDiffStep ⟨[], [], [], 0⟩

/-! ### ReviewEngine: data model -/

/-- An issue inside a finding, with the fields the embedded methods read
    (`line` may be absent; JS `undefined`/`null` modelled as `none`). -/
structure Issue where
  type : String
  category : String
  message : String
  suggestion : Option String
  line : Option Int
  deriving DecidableEq, Repr

/-- A per-file finding (the `reviewFile` result shape used by the aggregation
    methods: `filename`, `issues`, `score`). -/
structure Review where
  filename : String
  issues : List Issue
  score : Int
  deriving DecidableEq, Repr

/-- JS `Math.round`: round half toward positive infinity, `⌊x + 1/2⌋`. -/
def mathRound (q : ℚ) : Int :=
  ⌊q + (1 / 2 : ℚ)⌋

/-- The statistics record returned by `ReviewEngine.calculateReviewStats`. -/
structure ReviewStats where
  averageScore : Int
  errorCount : Nat
  warningCount : Nat
  suggestionCount : Nat
  securityIssues : Nat
  performanceIssues : Nat
  deriving DecidableEq, Repr

/-- Source method `ReviewEngine.calculateReviewStats`: `averageScore = Math.round(totalScore /
    totalReviews)` (0 when there are no reviews) plus the per-issue tallies. -/
def calculateReviewStats (reviews : List Review) : ReviewStats :=
  let totalReviews := reviews.length
  let totalScore : Int := reviews.foldl (fun sum review => sum + review.score) 0
  let averageScore : Int :=
    if totalReviews > 0 then mathRound ((totalScore : ℚ) / (totalReviews : ℚ)) else 0
  let allIssues := reviews.flatMap Review.issues
  { averageScore := averageScore
    errorCount := (allIssues.filter (fun i => i.type = "error")).length
    warningCount := (allIssues.filter (fun i => i.type = "warning")).length
    suggestionCount := (allIssues.filter (fun i => i.type = "suggestion")).length
    securityIssues := (allIssues.filter (fun i => i.category = "security")).length
    performanceIssues := (allIssues.filter (fun i => i.category = "performance")).length }

/-- The risk label computed in `ReviewEngine.formatReviewComment`:
    `avgScore >= 75 ? 'Low' : avgScore >= 60 ? 'Medium' : 'High'`. -/
def riskOf (avgScore : Int) : String :=
  if avgScore ≥ 75 then "Low" else if avgScore ≥ 60 then "Medium" else "High"

/-- The recommendation computed in `ReviewEngine.formatReviewComment`:
    the `if (avgScore >= 90) ... else ...` chain. -/
def recommendationOf (avgScore : Int) : String :=
  if avgScore ≥ 90 then "Approve"
  else if avgScore ≥ 75 then "Approve with Comments"
  else if avgScore ≥ 60 then "Request Changes"
  else "Reject"

/-- Source method `ReviewEngine.formatIssueComment`: emoji header, message, optional
    suggestion block (skipped for an absent or empty — falsy — suggestion),
    category footer. -/
def formatIssueComment (issue : Issue) : String :=
  let typeEmojis : List (String × String) :=
    [("error", "🚨"), ("warning", "⚠️"), ("suggestion", "💡")]
  let categoryEmojis : List (String × String) :=
    [("security", "🔒"), ("performance", "⚡"), ("maintainability", "🔧"),
     ("style", "🎨"), ("logic", "🧠"), ("best-practices", "📚")]
  let emoji := (typeEmojis.lookup issue.type).getD "💡"
  let categoryEmoji := (categoryEmojis.lookup issue.category).getD ""
  let head := emoji ++ " **" ++ jsToUpper issue.type ++ "** " ++ categoryEmoji ++ "\n\n" ++
    issue.message ++ "\n\n"
  let withSuggestion :=
    match issue.suggestion with
    | some s => if s = "" then head else head ++ "**Suggestion:**\n" ++ s ++ "\n\n"
    | none => head
  withSuggestion ++ "*Category: " ++ issue.category ++ "*"

/-- An inline review comment `{path, line, body}`. -/
structure ReviewComment where
  path : String
  line : Int
  body : String
  deriving DecidableEq, Repr

/-- The duplicate-suppression key of an emitted comment, `path:line`
    (the same shape as the keys built from existing comments). -/
def commentKey (c : ReviewComment) : String :=
  c.path ++ ":" ++ toString c.line

/-- The loop body of `ReviewEngine.createReviewComments` over the issue list:
    emit `{path, line, body}` for each issue with a truthy positive `line`
    whose `filename:line` key is not already present. -/
def createReviewCommentsGo (filename : String) (existingCommentPaths : List String) :
    List Issue → List ReviewComment
  | [] => []
  | issue :: rest =>
    match issue.line with
    | some n =>
      if 0 < n then
        if (filename ++ ":" ++ toString n) ∈ existingCommentPaths then
          createReviewCommentsGo filename existingCommentPaths rest
        else
          ⟨filename, n, formatIssueComment issue⟩ ::
            createReviewCommentsGo filename existingCommentPaths rest
      else createReviewCommentsGo filename existingCommentPaths rest
    | none => createReviewCommentsGo filename existingCommentPaths rest

/-- Source method `ReviewEngine.createReviewComments(file, review, commitSha,
    existingCommentPaths)`: `commitSha` is unused by the body; the file is used
    only through `file.filename`, which `reviewFile` stores equally in
    `review.filename`. -/
def createReviewComments (review : Review) (existingCommentPaths : List String) :
    List ReviewComment :=
  createReviewCommentsGo review.filename existingCommentPaths review.issues

/-- The aggregation loop of `ReviewEngine.performReview`: comments of every
    finding are collected against one fixed `existingCommentPaths` set. -/
def aggregateReviewComments (reviews : List Review) (existingCommentPaths : List String) :
    List ReviewComment :=
  reviews.foldl (fun acc review => acc ++ createReviewComments review existingCommentPaths) []

/-- The Boolean condition under which `createReviewComments` emits a comment for
    `issue`: a truthy positive line number whose key is fresh. -/
def emitP (filename : String) (existingCommentPaths : List String) (issue : Issue) : Bool :=
  match issue.line with
  | some n => decide (0 < n) && decide ((filename ++ ":" ++ toString n) ∉ existingCommentPaths)
  | none => false

/-- The comment emitted for an issue that passes `emitP`. -/
def mkInlineComment (filename : String) (issue : Issue) : ReviewComment :=
  ⟨filename, (issue.line.getD 0), formatIssueComment issue⟩

/-! ### Theorems settling the claims -/

/-- C3: the score-to-recommendation mapping of `formatReviewComment` is a total
    step function on integer scores 0..100 with inclusive lower bounds at
    90 / 75 / 60: at least 90 yields Approve, 75..89 yields Approve with
    Comments, 60..74 yields Request Changes, below 60 yields Reject. -/
theorem C3_recommendation_step_function (s : Int) (h0 : 0 ≤ s) (h1 : s ≤ 100) :
    (recommendationOf s = "Approve" ↔ 90 ≤ s) ∧
    (recommendationOf s = "Approve with Comments" ↔ 75 ≤ s ∧ s < 90) ∧
    (recommendationOf s = "Request Changes" ↔ 60 ≤ s ∧ s < 75) ∧
    (recommendationOf s = "Reject" ↔ s < 60) := by
  unfold recommendationOf
  split_ifs with h2 h3 h4 <;> simp <;> omega

/-- Witness for C3 at the concrete score 80. -/
theorem C3_witness :
    ((0 : Int) ≤ 80 ∧ (80 : Int) ≤ 100) ∧
    ((recommendationOf 80 = "Approve" ↔ 90 ≤ (80 : Int)) ∧
     (recommendationOf 80 = "Approve with Comments" ↔ 75 ≤ (80 : Int) ∧ (80 : Int) < 90) ∧
     (recommendationOf 80 = "Request Changes" ↔ 60 ≤ (80 : Int) ∧ (80 : Int) < 75) ∧
     (recommendationOf 80 = "Reject" ↔ (80 : Int) < 60)) :=
  ⟨by decide, C3_recommendation_step_function 80 (by decide) (by decide)⟩

/-- C4 counterexample: at `averageScore = 80` (inside the claimed low-medium
    band `[75, 90)`) the code labels the risk `"Low"`; there is no low-medium
    risk tier in the source. -/
theorem C4_counterexample : riskOf 80 = "Low" ∧ riskOf 80 ≠ "Low-Medium" := by
  decide

/-- C4 amended: the risk label is a three-way step function with inclusive
    lower bounds: at least 75 yields Low (including all scores at least 90),
    60..74 yields Medium, below 60 yields High. -/
theorem C4_amended_risk_thresholds (s : Int) :
    (75 ≤ s → riskOf s = "Low") ∧
    (60 ≤ s → s < 75 → riskOf s = "Medium") ∧
    (s < 60 → riskOf s = "High") := by
  unfold riskOf
  split_ifs with h1 h2 <;>
    refine ⟨fun h => ?_, fun h h' => ?_, fun h => ?_⟩ <;> first | rfl | omega

/-- Witness for C4 (amended) at the concrete score 80. -/
theorem C4_witness : (75 : Int) ≤ 80 ∧ riskOf 80 = "Low" :=
  ⟨by decide, (C4_amended_risk_thresholds 80).1 (by decide)⟩

/-- C5: `averageScore` is the round-half-up mean of the scores (0 when there
    are no findings); for scores `[95, 40]` it equals `round(67.5) = 68`, whose
    recommendation is Request Changes and whose risk label is Medium. -/
theorem C5_averageScore_round_half_up :
    (∀ reviews : List Review, reviews ≠ [] →
      (calculateReviewStats reviews).averageScore =
        mathRound (((reviews.foldl (fun sum r => sum + r.score) 0 : Int) : ℚ) /
          (reviews.length : ℚ))) ∧
    (calculateReviewStats []).averageScore = 0 ∧
    (calculateReviewStats [⟨"a.js", [], 95⟩, ⟨"b.js", [], 40⟩]).averageScore = 68 ∧
    mathRound ((135 : ℚ) / 2) = 68 ∧
    recommendationOf 68 = "Request Changes" ∧
    riskOf 68 = "Medium" := by
  refine ⟨fun reviews h => ?_, by decide,
    by norm_num [calculateReviewStats, mathRound, List.foldl],
    by norm_num [mathRound], by decide, by decide⟩
  have hpos : 0 < reviews.length := List.length_pos.mpr h
  simp [calculateReviewStats, hpos]

/-- Witness for C5 at the concrete finding list with scores 95 and 40. -/
theorem C5_witness :
    ([⟨"a.js", [], 95⟩, ⟨"b.js", [], 40⟩] ≠ ([] : List Review)) ∧
    (calculateReviewStats [⟨"a.js", [], 95⟩, ⟨"b.js", [], 40⟩]).averageScore =
      mathRound (((([⟨"a.js", [], 95⟩, ⟨"b.js", [], 40⟩] :
          List Review).foldl (fun sum r => sum + r.score) 0 : Int) : ℚ) /
        (([⟨"a.js", [], 95⟩, ⟨"b.js", [], 40⟩] : List Review).length : ℚ)) :=
  ⟨by decide, C5_averageScore_round_half_up.1 _ (by decide)⟩

/-- C7 (code bug evidence): the source lists `.min.js` and `.bundle.js` in its
    `binaryExtensions`, but `path.extname` only ever returns the last extension
    (`.js`), so `isBinaryFile` classifies minified/bundle files as non-binary
    and the eligibility filter does not drop them. -/
theorem C7_minified_not_binary :
    isBinaryFile "app.min.js" = false ∧
    isBinaryFile "app.bundle.js" = false ∧
    extname "app.min.js" = ".js" ∧
    ".min.js" ∈ binaryExtensions ∧ ".bundle.js" ∈ binaryExtensions ∧
    shouldReviewFile ⟨10, fun _ => false⟩ ⟨"app.min.js", "modified", 1⟩ = true := by
  decide

/-- C2 counterexample: for the patch with hunk header `@@ -1,3 +1,4 @@` followed
    by context, addition, removal, context, the assigned line numbers are
    1, 2, 3 (the new-file start is `match[2] = 1`), not 4, 5, 6 as claimed. -/
theorem C2_counterexample :
    (parseDiff "@@ -1,3 +1,4 @@\n line1\n+line2\n-line3\n line4").added.map DiffEntry.line
        = [2] ∧
    (parseDiff "@@ -1,3 +1,4 @@\n line1\n+line2\n-line3\n line4").context.map DiffEntry.line
        = [1, 3] ∧
    ([2] : List Nat) ≠ [5] ∧ ([1, 3] : List Nat) ≠ [4, 6] := by
  decide

/-- C2 amended: for that patch the added/context line numbers increment starting
    at 1 — the new-file start parsed from `+1,4` — giving context lines 1 and 3
    and the added line 2, and the removed record carries no line number. -/
theorem C2_amended_parseDiff :
    parseDiff "@@ -1,3 +1,4 @@\n line1\n+line2\n-line3\n line4" =
      ⟨[⟨2, "line2"⟩], ["line3"], [⟨1, "line1"⟩, ⟨3, "line4"⟩]⟩ := by
  decide

/-- C8 counterexample: the source special-cases `dockerfile`/`makefile` on the
    whole filename, not the basename, so the path `src/Dockerfile` (basename
    `Dockerfile`) maps to `"text"`, not `"dockerfile"` as claimed. -/
theorem C8_counterexample :
    detectLanguage "src/Dockerfile" = "text" ∧
    detectLanguage "src/Dockerfile" ≠ "dockerfile" := by
  decide

/-- C8 amended: `detectLanguage` is pure and total; a path whose *whole* string
    lower-cases to `dockerfile` or `makefile` maps to that language, and every
    other path is mapped deterministically through the fixed extension table,
    with unknown extensions mapping to `"text"`. -/
theorem C8_amended_detectLanguage (p : String) :
    (jsToLower p = "dockerfile" → detectLanguage p = "dockerfile") ∧
    (jsToLower p = "makefile" → detectLanguage p = "makefile") ∧
    (jsToLower p ≠ "dockerfile" → jsToLower p ≠ "makefile" →
      detectLanguage p = (languageMap.lookup (jsToLower (extname p))).getD "text") ∧
    (jsToLower p ≠ "dockerfile" → jsToLower p ≠ "makefile" →
      languageMap.lookup (jsToLower (extname p)) = none → detectLanguage p = "text") := by
  refine ⟨fun h => ?_, fun h => ?_, fun h1 h2 => ?_, fun h1 h2 h3 => ?_⟩ <;>
    unfold detectLanguage
  · rw [if_pos h]
  · rw [if_neg (by rw [h]; decide), if_pos h]
  · rw [if_neg h1, if_neg h2]
  · rw [if_neg h1, if_neg h2, h3]; rfl

/-- Witness for C8 (amended) at the concrete paths `DOCKERFILE`, `Makefile`
    and `weird.xyz`. -/
theorem C8_witness :
    (jsToLower "DOCKERFILE" = "dockerfile" ∧ detectLanguage "DOCKERFILE" = "dockerfile") ∧
    (jsToLower "Makefile" = "makefile" ∧ detectLanguage "Makefile" = "makefile") ∧
    detectLanguage "weird.xyz" = "text" :=
  ⟨⟨by decide, (C8_amended_detectLanguage "DOCKERFILE").1 (by decide)⟩,
   ⟨by decide, (C8_amended_detectLanguage "Makefile").2.1 (by decide)⟩,
   (C8_amended_detectLanguage "weird.xyz").2.2.2 (by decide) (by decide) (by decide)⟩

/-- C1 counterexample: with `maxFiles = 1` and two eligible files where the
    higher-priority one comes second, `filterFiles` slices *before* sorting, so
    the output is the first eligible file (priority 5) and the highest-priority
    eligible file (`src/auth.js`, priority 60) is dropped. -/
theorem C1_counterexample :
    (filterFiles ⟨1, fun _ => false⟩
        [⟨"a.md", "modified", 1⟩, ⟨"src/auth.js", "modified", 1⟩]).map
        (fun x => x.file.filename) = ["a.md"] ∧
    shouldReviewFile ⟨1, fun _ => false⟩ ⟨"src/auth.js", "modified", 1⟩ = true ∧
    calculateReviewPriority ⟨"src/auth.js", "modified", 1⟩ = 60 ∧
    calculateReviewPriority ⟨"a.md", "modified", 1⟩ = 5 := by
  decide

/-- C1 amended: `filterFiles` keeps the first `maxFiles` *eligible files in
    input order* (not the highest-priority ones), annotates them, and returns
    them sorted by non-increasing priority; the output length is at most
    `min(maxFiles, number of eligible files)` and the output is a permutation of
    the annotated take-prefix of the eligible list. -/
theorem C1_amended_filterFiles (cfg : Config) (files : List ChangedFile) :
    (filterFiles cfg files).length ≤
      min cfg.maxFiles (files.filter (shouldReviewFile cfg)).length ∧
    List.Sorted (fun a b => b.reviewPriority ≤ a.reviewPriority) (filterFiles cfg files) ∧
    (filterFiles cfg files).Perm
      (((files.filter (shouldReviewFile cfg)).take cfg.maxFiles).map analyzeFile) := by
  haveI : IsTotal AnalyzedFile (fun a b => b.reviewPriority ≤ a.reviewPriority) :=
    ⟨fun a b => le_total b.reviewPriority a.reviewPriority⟩
  haveI : IsTrans AnalyzedFile (fun a b => b.reviewPriority ≤ a.reviewPriority) :=
    ⟨fun _ _ _ hab hbc => le_trans hbc hab⟩
  unfold filterFiles
  refine ⟨?_, List.sorted_insertionSort _ _, List.perm_insertionSort _ _⟩
  rw [(List.perm_insertionSort _ _).length_eq, List.length_map, List.length_take]

/-- Helper: the language-tier bonus of `calculateReviewPriority` is always
    between 5 (the fallback) and 15 (the maximal table entry). -/
theorem languagePriority_bounds (lang : String) :
    5 ≤ (languagePriorities.lookup lang).getD 5 ∧
      (languagePriorities.lookup lang).getD 5 ≤ 15 := by
  unfold languagePriorities
  simp only [List.lookup]
  repeat' split
  all_goals simp

/-- Helper: every priority computed by `calculateReviewPriority` lies in
    the inclusive range 5..95. -/
theorem calculateReviewPriority_bounds (f : ChangedFile) :
    5 ≤ calculateReviewPriority f ∧ calculateReviewPriority f ≤ 95 := by
  unfold calculateReviewPriority
  have h := languagePriority_bounds (detectLanguage f.filename)
  dsimp only
  split_ifs <;> omega

/-- C10: every candidate returned by `filterFiles` has `reviewPriority` in the
    inclusive range 5..95 — the language tier contributes at least the fallback
    5, and the bonuses sum to at most 20 + 15 + 10 + 25 + 15 + 10 = 95. -/
theorem C10_priority_range (cfg : Config) (files : List ChangedFile)
    (x : AnalyzedFile) (hx : x ∈ filterFiles cfg files) :
    5 ≤ x.reviewPriority ∧ x.reviewPriority ≤ 95 := by
  unfold filterFiles at hx
  rw [(List.perm_insertionSort _ _).mem_iff] at hx
  obtain ⟨f, -, rfl⟩ := List.mem_map.mp hx
  exact calculateReviewPriority_bounds f

/-- Witness for C10 at a concrete selection. -/
theorem C10_witness :
    (analyzeFile ⟨"a.md", "modified", 1⟩ ∈
      filterFiles ⟨1, fun _ => false⟩ [⟨"a.md", "modified", 1⟩]) ∧
    5 ≤ (analyzeFile ⟨"a.md", "modified", 1⟩).reviewPriority ∧
    (analyzeFile ⟨"a.md", "modified", 1⟩).reviewPriority ≤ 95 :=
  ⟨by decide,
   C10_priority_range ⟨1, fun _ => false⟩ [⟨"a.md", "modified", 1⟩]
     (analyzeFile ⟨"a.md", "modified", 1⟩) (by decide)⟩

/-- Helper: the issue loop of `createReviewComments` emits exactly the issues
    passing `emitP`, each rendered by `mkInlineComment`. -/
theorem createReviewCommentsGo_eq (filename : String) (keys : List String)
    (issues : List Issue) :
    createReviewCommentsGo filename keys issues =
      (issues.filter (emitP filename keys)).map (mkInlineComment filename) := by
  induction issues with
  | nil => rfl
  | cons i rest ih =>
    cases hl : i.line with
    | none =>
      simp [createReviewCommentsGo, hl, List.filter_cons, emitP, ih]
    | some n =>
      by_cases hn : 0 < n
      · by_cases hk : (filename ++ ":" ++ toString n) ∈ keys
        · simp [createReviewCommentsGo, hl, hn, hk, List.filter_cons, emitP, ih]
        · simp [createReviewCommentsGo, hl, hn, hk, List.filter_cons, emitP, ih,
            mkInlineComment]
      · simp [createReviewCommentsGo, hl, hn, List.filter_cons, emitP, ih]

/-- Helper: unfolding the accumulator of the comment-aggregation loop. -/
theorem aggregateReviewComments_go (reviews : List Review) (keys : List String)
    (acc : List ReviewComment) :
    reviews.foldl (fun acc review => acc ++ createReviewComments review keys) acc =
      acc ++ reviews.flatMap (fun review => createReviewComments review keys) := by
  induction reviews generalizing acc with
  | nil => simp
  | cons r rest ih => simp [List.foldl_cons, ih, List.flatMap_cons]

/-- Helper: the aggregation loop of `performReview` is the concatenation of the
    per-finding comment lists. -/
theorem aggregateReviewComments_eq (reviews : List Review) (keys : List String) :
    aggregateReviewComments reviews keys =
      reviews.flatMap (fun review => createReviewComments review keys) := by
  unfold aggregateReviewComments
  simpa using aggregateReviewComments_go reviews keys []

/-- C6: inline-comment derivation and its idempotence under duplicate
    suppression.  First, `createReviewComments` emits one comment per issue
    with a truthy positive line number whose `filename:line` key is fresh
    (in particular, issues without a line number never become inline comments).
    Second, re-running the aggregation with a key set extended by all
    previously emitted keys produces zero new inline comments.  Third, a
    finding whose issues all lack line numbers produces no comments. -/
theorem C6_createReviewComments_idempotent :
    (∀ (r : Review) (keys : List String),
      createReviewComments r keys =
        (r.issues.filter (emitP r.filename keys)).map (mkInlineComment r.filename)) ∧
    (∀ (reviews : List Review) (keys : List String),
      aggregateReviewComments reviews
        (keys ++ (aggregateReviewComments reviews keys).map commentKey) = []) ∧
    (∀ (r : Review) (keys : List String), (∀ i ∈ r.issues, i.line = none) →
      createReviewComments r keys = []) := by
  have hchar : ∀ (r : Review) (keys : List String),
      createReviewComments r keys =
        (r.issues.filter (emitP r.filename keys)).map (mkInlineComment r.filename) :=
    fun r keys => createReviewCommentsGo_eq r.filename keys r.issues
  refine ⟨hchar, fun reviews keys => ?_, fun r keys h => ?_⟩
  · rw [aggregateReviewComments_eq, List.flatMap_eq_nil_iff]
    intro r hr
    rw [hchar, List.map_eq_nil_iff, List.filter_eq_nil_iff]
    intro i hi hemit
    unfold emitP at hemit
    cases hl : i.line with
    | none => rw [hl] at hemit; exact Bool.noConfusion hemit
    | some n =>
      rw [hl] at hemit
      simp only [Bool.and_eq_true, decide_eq_true_eq] at hemit
      obtain ⟨hn, hfresh⟩ := hemit
      by_cases hk : (r.filename ++ ":" ++ toString n) ∈ keys
      · exact hfresh (List.mem_append_left _ hk)
      · refine hfresh (List.mem_append_right _ ?_)
        refine List.mem_map.mpr ⟨mkInlineComment r.filename i, ?_, ?_⟩
        · rw [aggregateReviewComments_eq]
          refine List.mem_flatMap.mpr ⟨r, hr, ?_⟩
          rw [hchar]
          refine List.mem_map.mpr ⟨i, ?_, rfl⟩
          rw [List.mem_filter]
          refine ⟨hi, ?_⟩
          unfold emitP
          rw [hl]
          simp [hn, hk]
        · unfold commentKey mkInlineComment
          rw [hl]
          rfl
  · rw [hchar, List.map_eq_nil_iff, List.filter_eq_nil_iff]
    intro i hi
    unfold emitP
    rw [h i hi]
    simp

/-- Witness for C6 at a concrete finding whose single issue has no line number. -/
theorem C6_witness :
    (∀ i ∈ (Review.mk "f.js" [⟨"suggestion", "style", "msg", none, none⟩] 80).issues,
      i.line = none) ∧
    createReviewComments (Review.mk "f.js" [⟨"suggestion", "style", "msg", none, none⟩] 80)
      ["f.js:3"] = [] :=
  ⟨by decide,
   C6_createReviewComments_idempotent.2.2
     (Review.mk "f.js" [⟨"suggestion", "style", "msg", none, none⟩] 80)
     ["f.js:3"] (by decide)⟩

/-- C9 counterexample: a patch whose second hunk header resets the line cursor
    below its current value produces added line numbers 10 then 1 — not
    monotonically non-decreasing, refuting the claim for arbitrary patches. -/
theorem C9_counterexample :
    (parseDiff "@@ -10,2 +10,2 @@\n+a\n@@ -1,2 +1,2 @@\n+b").added.map DiffEntry.line
        = [10, 1] ∧
    ¬ List.Sorted (· ≤ ·) [(10 : Nat), 1] := by
  decide

/-- Helper: appending a strict upper bound on the right preserves sortedness. -/
theorem sorted_snoc_of_lt {l : List Nat} {c : Nat}
    (hs : List.Sorted (· ≤ ·) l) (hb : ∀ x ∈ l, x < c) :
    List.Sorted (· ≤ ·) (l ++ [c]) :=
  List.pairwise_append.mpr ⟨hs, List.pairwise_singleton _ _,
    fun a ha b hb' => by
      rw [List.mem_singleton] at hb'
      subst hb'
      exact le_of_lt (hb a ha)⟩

/-- Helper: one `parseDiff` step preserves the invariant that all recorded
    added/context line numbers are strictly below the cursor and that both
    mapped line-number sequences are sorted, provided the step does not
    decrease the cursor. -/
theorem parseDiffStep_inv (st : ParseState) (l : String)
    (hcur : st.cur ≤ (parseDiffStep st l).cur)
    (h1 : ∀ e ∈ st.added, e.line < st.cur)
    (h2 : ∀ e ∈ st.context, e.line < st.cur)
    (h3 : List.Sorted (· ≤ ·) (st.added.map DiffEntry.line))
    (h4 : List.Sorted (· ≤ ·) (st.context.map DiffEntry.line)) :
    (∀ e ∈ (parseDiffStep st l).added, e.line < (parseDiffStep st l).cur) ∧
    (∀ e ∈ (parseDiffStep st l).context, e.line < (parseDiffStep st l).cur) ∧
    List.Sorted (· ≤ ·) ((parseDiffStep st l).added.map DiffEntry.line) ∧
    List.Sorted (· ≤ ·) ((parseDiffStep st l).context.map DiffEntry.line) := by
  unfold parseDiffStep at hcur ⊢
  split_ifs at hcur ⊢ with hA hP hM hS
  · revert hcur
    cases hunkNewStart l with
    | some n =>
      intro hcur
      dsimp only at hcur ⊢
      exact ⟨fun e he => lt_of_lt_of_le (h1 e he) hcur,
        fun e he => lt_of_lt_of_le (h2 e he) hcur, h3, h4⟩
    | none =>
      exact fun _ => ⟨h1, h2, h3, h4⟩
  · dsimp only at hcur ⊢
    refine ⟨?_, ?_, ?_, h4⟩
    · intro e he
      rcases List.mem_append.mp he with he | he
      · exact Nat.lt_succ_of_lt (h1 e he)
      · rw [List.mem_singleton] at he
        subst he
        exact Nat.lt_succ_self _
    · exact fun e he => Nat.lt_succ_of_lt (h2 e he)
    · rw [List.map_append]
      refine sorted_snoc_of_lt h3 ?_
      intro x hx
      obtain ⟨e, he, rfl⟩ := List.mem_map.mp hx
      exact h1 e he
  · exact ⟨h1, h2, h3, h4⟩
  · dsimp only at hcur ⊢
    refine ⟨fun e he => Nat.lt_succ_of_lt (h1 e he), ?_, h3, ?_⟩
    · intro e he
      rcases List.mem_append.mp he with he | he
      · exact Nat.lt_succ_of_lt (h2 e he)
      · rw [List.mem_singleton] at he
        subst he
        exact Nat.lt_succ_self _
    · rw [List.map_append]
      refine sorted_snoc_of_lt h4 ?_
      intro x hx
      obtain ⟨e, he, rfl⟩ := List.mem_map.mp hx
      exact h2 e he
  · exact ⟨h1, h2, h3, h4⟩

/-- Helper: folding `parseDiffStep` over any line list keeps the added/context
    line-number sequences sorted, as long as the cursor never decreases along
    the state trace. -/
theorem parseDiff_fold_inv (lines : List String) :
    ∀ st : ParseState,
      List.Chain' (fun a b => a.cur ≤ b.cur) (lines.scanl parseDiffStep st) →
      (∀ e ∈ st.added, e.line < st.cur) →
      (∀ e ∈ st.context, e.line < st.cur) →
      List.Sorted (· ≤ ·) (st.added.map DiffEntry.line) →
      List.Sorted (· ≤ ·) (st.context.map DiffEntry.line) →
      List.Sorted (· ≤ ·) ((lines.foldl parseDiffStep st).added.map DiffEntry.line) ∧
      List.Sorted (· ≤ ·) ((lines.foldl parseDiffStep st).context.map DiffEntry.line) := by
  induction lines with
  | nil => exact fun st _ _ _ h3 h4 => ⟨h3, h4⟩
  | cons l ls ih =>
    intro st hchain h1 h2 h3 h4
    rw [List.scanl_cons, List.singleton_append] at hchain
    obtain ⟨hR, hchain'⟩ := List.chain'_cons'.mp hchain
    have hhead : (List.scanl parseDiffStep (parseDiffStep st l) ls).head? =
        some (parseDiffStep st l) := by
      cases ls <;> simp [List.scanl_cons, List.scanl_nil]
    have hcur : st.cur ≤ (parseDiffStep st l).cur := hR _ (by rw [hhead]; rfl)
    rw [List.foldl_cons]
    have hinv := parseDiffStep_inv st l hcur h1 h2 h3 h4
    exact ih (parseDiffStep st l) hchain' hinv.1 hinv.2.1 hinv.2.2.1 hinv.2.2.2

/-- C9 amended: whenever the `currentLine` cursor is non-decreasing along the
    parse trace (no hunk header resets it below the cursor's current value),
    the line numbers of the added sequence and of the context sequence produced
    by `parseDiff` are monotonically non-decreasing; without that condition a
    hunk header whose new-file start is below the current cursor makes them
    decrease. -/
theorem C9_amended_parseDiff_monotone (patch : String)
    (h : List.Chain' (fun a b => a.cur ≤ b.cur) (parseStates patch)) :
    List.Sorted (· ≤ ·) ((parseDiff patch).added.map DiffEntry.line) ∧
    List.Sorted (· ≤ ·) ((parseDiff patch).context.map DiffEntry.line) := by
  unfold parseDiff
  split_ifs with hp
  · exact ⟨List.sorted_nil, List.sorted_nil⟩
  · unfold parseStates at h
    have hres := parseDiff_fold_inv (jsSplitLines patch) ⟨[], [], [], 0⟩ h
      (by simp) (by simp) (by simp) (by simp)
    exact hres

/-- Witness for C9 (amended) on the single-hunk patch of the specification
    example, whose cursor trace 0, 1, 2, 3, 3, 4 is non-decreasing. -/
theorem C9_witness :
    List.Chain' (fun a b : ParseState => a.cur ≤ b.cur)
      (parseStates "@@ -1,3 +1,4 @@\n line1\n+line2\n-line3\n line4") ∧
    (List.Sorted (· ≤ ·)
      ((parseDiff "@@ -1,3 +1,4 @@\n line1\n+line2\n-line3\n line4").added.map
        DiffEntry.line) ∧
     List.Sorted (· ≤ ·)
      ((parseDiff "@@ -1,3 +1,4 @@\n line1\n+line2\n-line3\n line4").context.map
        DiffEntry.line)) :=
  ⟨by
    rw [← List.chain'_map ParseState.cur]
    have h : (parseStates "@@ -1,3 +1,4 @@\n line1\n+line2\n-line3\n line4").map
        ParseState.cur = [0, 1, 2, 3, 3, 4] := by decide
    rw [h]
    simp [List.chain'_cons, List.chain'_singleton],
   C9_amended_parseDiff_monotone "@@ -1,3 +1,4 @@\n line1\n+line2\n-line3\n line4"
     (by
      rw [← List.chain'_map ParseState.cur]
      have h : (parseStates "@@ -1,3 +1,4 @@\n line1\n+line2\n-line3\n line4").map
          ParseState.cur = [0, 1, 2, 3, 3, 4] := by decide
      rw [h]
      simp [List.chain'_cons, List.chain'_singleton])⟩
